import Mathlib

/-!
Verification of the OpenDAL operator façade (`core/src/types/operator/operator.rs`
and `core/src/types/operator/operator_functions.rs`) against its design
specification.

The Rust code is shallowly embedded: every public operation of the async
`Operator` façade becomes a pure Lean function that takes an abstract
backend (a record of response functions) and returns both its result and
the ordered trace of backend calls it issued.  Byte buffers are `List Nat`,
machine integers are `Nat`, fallible calls return `Except Error`.
-/

namespace Opendal

/-- Error kinds of the façade's error taxonomy (spec section 7). -/
inductive ErrorKind where
  | NotFound
  | IsADirectory
  | NotADirectory
  | IsSameFile
  | ConditionNotMatch
  | Unsupported
  | Unexpected
deriving DecidableEq, Repr

/-- A structured error: kind plus message (context fields are dropped as
they never influence control flow in the embedded code). -/
structure Error where
  kind : ErrorKind
  message : String
deriving DecidableEq, Repr

/-- Entry mode, mirroring `EntryMode` (`FILE` / `DIR` / `Unknown`). -/
inductive EntryMode where
  | FILE
  | DIR
  | Unknown
deriving DecidableEq, Repr

/-- Metadata returned by `stat`: mode and content length are the only
fields the embedded operations inspect. -/
structure Metadata where
  mode : EntryMode
  content_length : Nat
deriving DecidableEq, Repr

/-- An entry produced by listing: the embedded code only reads `v.path()`. -/
structure Entry where
  path : String
deriving DecidableEq, Repr

/-- Collapse every run of consecutive `/` characters into a single one. -/
def collapseSlashes : List Char → List Char
  | [] => []
  | '/' :: '/' :: rest => collapseSlashes ('/' :: rest)
  | c :: rest => c :: collapseSlashes rest

/-- Modelled from the spec: `normalize_path` lives in `raw/path.rs`, outside
the covered sources.  Spec 4.1: "collapses redundant separators, ensures a
single canonical form; idempotent". -/
def normalize_path (p : String) : String :=
  String.mk (collapseSlashes p.data)

/-- Whether a path string ends with the `/` character, mirroring the Rust
`path.ends_with('/')`. -/
def endsWithSlash (p : String) : Bool :=
  match p.data.getLast? with
  | some c => c = '/'
  | none => false

/-- Modelled from the spec: `validate_path` lives in `raw/path.rs`, outside
the covered sources.  Spec 4.1: "for `expected_mode = Directory`, path must
end with `/`; for `File`, must not". -/
def validate_path (p : String) (mode : EntryMode) : Bool :=
  match mode with
  | EntryMode.FILE => !endsWithSlash p
  | EntryMode.DIR => endsWithSlash p
  | EntryMode.Unknown => false

/-- Byte range of a read: optional offset and optional size, mirroring
`BytesRange(Option<u64>, Option<u64>)`. -/
structure BytesRange where
  offset : Option Nat
  size : Option Nat
deriving DecidableEq, Repr

/-- Modelled from the spec: `BytesRange::complete` lives in `raw/`, outside
the covered sources.  Spec 4.3: on an unbounded range the read "computes the
completed range (`[start, length)` or the full file)". -/
def BytesRange.complete (r : BytesRange) (total : Nat) : BytesRange :=
  match r.offset, r.size with
  | some o, none => ⟨some o, some (total - o)⟩
  | none, none => ⟨some 0, some total⟩
  | _, _ => r

/-- One backend call, as recorded in an operation's trace. -/
inductive BackendOp where
  | stat (path : String)
  | read (path : String) (range : BytesRange)
  | create_dir (path : String)
  | copy (src dst : String)
  | rename (src dst : String)
  | delete (path : String)
  | batch (paths : List String)
  | list (path : String) (recursive : Bool)
  | write_open (path : String)
  | write_chunk (bytes : List Nat)
  | close
deriving DecidableEq, Repr

/-- The abstract backend (`FusedAccessor`): a record of pure response
functions, one per primitive the embedded operations invoke, plus the
capability fields those operations consult. -/
structure Backend where
  statFn : String → Except Error Metadata
  readFn : String → BytesRange → Except Error (List Nat)
  createDirFn : String → Except Error Unit
  copyFn : String → String → Except Error Unit
  renameFn : String → String → Except Error Unit
  deleteFn : String → Except Error Unit
  batchFn : List String → Except Error (List (String × Except Error Unit))
  listFn : String → Bool → Except Error (List (Except Error Entry))
  writeOpenFn : String → Except Error Unit
  writeFn : List Nat → Except Error Nat
  closeFn : Except Error Unit
  capability_batch : Bool
  batch_max_operations : Option Nat

/-- The `Operator` façade: an accessor plus the batch limit. -/
structure Operator where
  accessor : Backend
  limit : Nat

/-- Mirrors `Operator::from_inner`: the limit is the capability's
`batch_max_operations`, defaulting to 1000. -/
def Operator.from_inner (accessor : Backend) : Operator :=
  { accessor := accessor
    limit := accessor.batch_max_operations.getD 1000 }

/-- Mirrors `Operator::with_limit`. -/
def Operator.with_limit (op : Operator) (l : Nat) : Operator :=
  { op with limit := l }

/-- Read-operation arguments (`OpRead`): only the range influences the
control flow of `read_with`. -/
structure OpRead where
  range : BytesRange := ⟨none, none⟩
  if_match : Option String := none
  if_none_match : Option String := none
  version : Option String := none
deriving DecidableEq, Repr

/-- Mirrors `Operator::create_dir`: normalize, require a trailing slash
(else `NotADirectory`), then call the backend. -/
def Operator.create_dir (op : Operator) (path : String) :
    Except Error Unit × List BackendOp :=
  let p := normalize_path path
  if !validate_path p EntryMode.DIR then
    (Except.error ⟨ErrorKind.NotADirectory,
      "the path trying to create should end with `/`"⟩, [])
  else
    match op.accessor.createDirFn p with
    | Except.error e => (Except.error e, [BackendOp.create_dir p])
    | Except.ok _ => (Except.ok (), [BackendOp.create_dir p])

/-- Mirrors `Operator::copy`: validate `from` is a file, validate `to` is a
file, reject `from == to` with `IsSameFile`, then call the backend. -/
def Operator.copy (op : Operator) (src dst : String) :
    Except Error Unit × List BackendOp :=
  let f := normalize_path src
  if !validate_path f EntryMode.FILE then
    (Except.error ⟨ErrorKind.IsADirectory, "from path is a directory"⟩, [])
  else
    let t := normalize_path dst
    if !validate_path t EntryMode.FILE then
      (Except.error ⟨ErrorKind.IsADirectory, "to path is a directory"⟩, [])
    else if f = t then
      (Except.error ⟨ErrorKind.IsSameFile, "from and to paths are same"⟩, [])
    else
      match op.accessor.copyFn f t with
      | Except.error e => (Except.error e, [BackendOp.copy f t])
      | Except.ok _ => (Except.ok (), [BackendOp.copy f t])

/-- Mirrors `Operator::rename`: the same precondition checks as `copy`,
then the backend `rename` call. -/
def Operator.rename (op : Operator) (src dst : String) :
    Except Error Unit × List BackendOp :=
  let f := normalize_path src
  if !validate_path f EntryMode.FILE then
    (Except.error ⟨ErrorKind.IsADirectory, "from path is a directory"⟩, [])
  else
    let t := normalize_path dst
    if !validate_path t EntryMode.FILE then
      (Except.error ⟨ErrorKind.IsADirectory, "to path is a directory"⟩, [])
    else if f = t then
      (Except.error ⟨ErrorKind.IsSameFile, "from and to paths are same"⟩, [])
    else
      match op.accessor.renameFn f t with
      | Except.error e => (Except.error e, [BackendOp.rename f t])
      | Except.ok _ => (Except.ok (), [BackendOp.rename f t])

/-- Mirrors `Operator::check`: list the root, then
`match ds.next().await { Some(Err(e)) if e.kind() != NotFound => Err(e),
_ => Ok(()) }`. -/
def Operator.check (op : Operator) : Except Error Unit :=
  match op.accessor.listFn (normalize_path "/") false with
  | Except.error e => Except.error e
  | Except.ok items =>
    match items.head? with
    | some (Except.error e) =>
      if e.kind ≠ ErrorKind.NotFound then Except.error e else Except.ok ()
    | _ => Except.ok ()

/-- Mirrors the executed future of `Operator::read_with`: validate the path
is a file; if the range has a known size use it, otherwise `stat` for the
content length and complete the range; then read and drain the stream. -/
def Operator.read_with (op : Operator) (path : String) (args : OpRead) :
    Except Error (List Nat) × List BackendOp :=
  let p := normalize_path path
  if !validate_path p EntryMode.FILE then
    (Except.error ⟨ErrorKind.IsADirectory, "read path is a directory"⟩, [])
  else
    match args.range.size with
    | some _ =>
      match op.accessor.readFn p args.range with
      | Except.error e => (Except.error e, [BackendOp.read p args.range])
      | Except.ok bs => (Except.ok bs, [BackendOp.read p args.range])
    | none =>
      match op.accessor.statFn p with
      | Except.error e => (Except.error e, [BackendOp.stat p])
      | Except.ok meta =>
        let range := args.range.complete meta.content_length
        match op.accessor.readFn p range with
        | Except.error e =>
          (Except.error e, [BackendOp.stat p, BackendOp.read p range])
        | Except.ok bs =>
          (Except.ok bs, [BackendOp.stat p, BackendOp.read p range])

/-- The partial-write loop of `write_with`:
`while bs.remaining() > 0 { let n = w.write(&bs).await?; bs.advance(n); }`.
The loop is fuel-indexed; `none` marks the divergence that a writer
reporting `Ok(0)` forever would cause in the source.  On success the trace
collects the consumed prefix of each call. -/
def writeLoop (w : List Nat → Except Error Nat) :
    Nat → List Nat → Option (Except Error Unit × List (List Nat))
  | _, [] => some (Except.ok (), [])
  | 0, _ :: _ => none
  | fuel + 1, b :: bs =>
    match w (b :: bs) with
    | Except.error e => some (Except.error e, [])
    | Except.ok n =>
      match writeLoop w fuel ((b :: bs).drop n) with
      | none => none
      | some (r, chunks) => some (r, (b :: bs).take n :: chunks)

/-- Mirrors the executed future of `Operator::write_with`: validate the
path is a file, open the backend writer, loop partial writes until the
buffer is consumed, then close.  `none` marks divergence of the loop. -/
def Operator.write_with (op : Operator) (path : String) (bs : List Nat) :
    Option (Except Error Unit × List BackendOp) :=
  let p := normalize_path path
  if !validate_path p EntryMode.FILE then
    some (Except.error ⟨ErrorKind.IsADirectory, "write path is a directory"⟩, [])
  else
    match op.accessor.writeOpenFn p with
    | Except.error e => some (Except.error e, [BackendOp.write_open p])
    | Except.ok _ =>
      match writeLoop op.accessor.writeFn (bs.length + 1) bs with
      | none => none
      | some (Except.error e, chunks) =>
        some (Except.error e,
          BackendOp.write_open p :: chunks.map BackendOp.write_chunk)
      | some (Except.ok _, chunks) =>
        match op.accessor.closeFn with
        | Except.error e =>
          some (Except.error e,
            BackendOp.write_open p :: chunks.map BackendOp.write_chunk
              ++ [BackendOp.close])
        | Except.ok _ =>
          some (Except.ok (),
            BackendOp.write_open p :: chunks.map BackendOp.write_chunk
              ++ [BackendOp.close])

/-- Mirrors `Operator::delete` (via `delete_with`): normalize, then one
backend delete. -/
def Operator.delete (op : Operator) (path : String) :
    Except Error Unit × List BackendOp :=
  let p := normalize_path path
  match op.accessor.deleteFn p with
  | Except.error e => (Except.error e, [BackendOp.delete p])
  | Except.ok _ => (Except.ok (), [BackendOp.delete p])

/-- Accumulating helper for `chunksOf`: collect elements into `acc` and
emit a chunk whenever `acc` reaches the chunk size. -/
def chunksAcc (n : Nat) (acc : List α) : List α → List (List α)
  | [] => if acc.isEmpty then [] else [acc]
  | x :: xs =>
    if n ≤ (acc ++ [x]).length then (acc ++ [x]) :: chunksAcc n [] xs
    else chunksAcc n (acc ++ [x]) xs

/-- Consecutive chunks of size `n`, mirroring `StreamExt::chunks(n)` on a
finite stream.  The source panics on `n = 0`; that case is never exercised
(theorems assume a positive limit). -/
def chunksOf (n : Nat) (l : List α) : List (List α) :=
  chunksAcc n [] l

/-- First error of a batch reply, in the order the backend returned the
per-item results: mirrors `for (_, result) in results { let _ = result?; }`. -/
def firstErr : List (String × Except Error Unit) → Option Error
  | [] => none
  | (_, Except.error e) :: _ => some e
  | (_, Except.ok _) :: rest => firstErr rest

/-- The batch branch of `remove_via`: submit each chunk as one batch call;
a failed batch call or the first failed per-item result aborts the loop. -/
def batchLoop (b : Backend) : List (List String) → Except Error Unit × List BackendOp
  | [] => (Except.ok (), [])
  | c :: cs =>
    match b.batchFn c with
    | Except.error e => (Except.error e, [BackendOp.batch c])
    | Except.ok results =>
      match firstErr results with
      | some e => (Except.error e, [BackendOp.batch c])
      | none =>
        let (r, t) := batchLoop b cs
        (r, BackendOp.batch c :: t)

/-- The non-batch branch of `remove_via`: per-path deletes with
bounded concurrency (`try_for_each_concurrent`), modelled as one sequential
linearization that stops at the first failing delete. -/
def deleteEach (b : Backend) : List String → Except Error Unit × List BackendOp
  | [] => (Except.ok (), [])
  | p :: ps =>
    match b.deleteFn p with
    | Except.error e => (Except.error e, [BackendOp.delete p])
    | Except.ok _ =>
      let (r, t) := deleteEach b ps
      (r, BackendOp.delete p :: t)

/-- Mirrors `Operator::remove_via`: normalize every incoming path; if the
capability `batch` is set, chunk by the operator's limit and batch-delete
chunk by chunk, else delete path by path. -/
def Operator.remove_via (op : Operator) (input : List String) :
    Except Error Unit × List BackendOp :=
  let paths := input.map normalize_path
  if op.accessor.capability_batch then
    batchLoop op.accessor (chunksOf op.limit paths)
  else
    deleteEach op.accessor paths

/-- The batch branch of `remove_all` over the recursive listing stream:
mirrors `try_chunks(limit)` followed by one batch call per chunk.  `acc`
holds the entries collected for the chunk being built; an `Err` stream item
aborts (`batches.map_err(|err| err.1)?`); a full chunk (or the final
partial one) is submitted, with entry paths taken verbatim
(`v.path().to_string()`). -/
def removeAllBatchGo (b : Backend) (limit : Nat) :
    List Entry → List (Except Error Entry) → Except Error Unit × List BackendOp
  | acc, [] =>
    if acc = [] then (Except.ok (), [])
    else
      match b.batchFn (acc.map Entry.path) with
      | Except.error e => (Except.error e, [BackendOp.batch (acc.map Entry.path)])
      | Except.ok results =>
        match firstErr results with
        | some e => (Except.error e, [BackendOp.batch (acc.map Entry.path)])
        | none => (Except.ok (), [BackendOp.batch (acc.map Entry.path)])
  | _, Except.error e :: _ => (Except.error e, [])
  | acc, Except.ok ent :: rest =>
    let acc := acc ++ [ent]
    if limit ≤ acc.length then
      match b.batchFn (acc.map Entry.path) with
      | Except.error e => (Except.error e, [BackendOp.batch (acc.map Entry.path)])
      | Except.ok results =>
        match firstErr results with
        | some e => (Except.error e, [BackendOp.batch (acc.map Entry.path)])
        | none =>
          let (r, t) := removeAllBatchGo b limit [] rest
          (r, BackendOp.batch (acc.map Entry.path) :: t)
    else
      removeAllBatchGo b limit acc rest

/-- The non-batch branch of `remove_all`:
`obs.try_for_each(|v| async move { self.delete(v.path()).await })`; note
`Operator::delete` normalizes each entry path again. -/
def removeAllSeq (b : Backend) : List (Except Error Entry) → Except Error Unit × List BackendOp
  | [] => (Except.ok (), [])
  | Except.error e :: _ => (Except.error e, [])
  | Except.ok ent :: rest =>
    match b.deleteFn (normalize_path ent.path) with
    | Except.error e => (Except.error e, [BackendOp.delete (normalize_path ent.path)])
    | Except.ok _ =>
      let (r, t) := removeAllSeq b rest
      (r, BackendOp.delete (normalize_path ent.path) :: t)

/-- Mirrors `Operator::remove_all`: stat the target (`NotFound` is
success, other errors propagate); a non-directory is deleted directly; a
directory is listed recursively, the discovered entries are deleted
(batched or one by one), and finally the directory itself is deleted. -/
def Operator.remove_all (op : Operator) (path : String) :
    Except Error Unit × List BackendOp :=
  let p := normalize_path path
  match op.accessor.statFn p with
  | Except.error e =>
    if e.kind = ErrorKind.NotFound then (Except.ok (), [BackendOp.stat p])
    else (Except.error e, [BackendOp.stat p])
  | Except.ok meta =>
    if meta.mode ≠ EntryMode.DIR then
      match op.accessor.deleteFn p with
      | Except.error e => (Except.error e, [BackendOp.stat p, BackendOp.delete p])
      | Except.ok _ => (Except.ok (), [BackendOp.stat p, BackendOp.delete p])
    else
      match op.accessor.listFn p true with
      | Except.error e => (Except.error e, [BackendOp.stat p, BackendOp.list p true])
      | Except.ok items =>
        let (r, t) :=
          if op.accessor.capability_batch then
            removeAllBatchGo op.accessor op.limit [] items
          else
            removeAllSeq op.accessor items
        match r with
        | Except.error e =>
          (Except.error e, BackendOp.stat p :: BackendOp.list p true :: t)
        | Except.ok _ =>
          match op.accessor.deleteFn p with
          | Except.error e =>
            (Except.error e,
              BackendOp.stat p :: BackendOp.list p true :: t ++ [BackendOp.delete p])
          | Except.ok _ =>
            (Except.ok (),
              BackendOp.stat p :: BackendOp.list p true :: t ++ [BackendOp.delete p])

/-- Write-operation arguments (`OpWrite`).  Modelled from the spec's
data model (the `raw` ops live outside the covered sources): per-call
configuration built incrementally via pure steps. -/
structure OpWrite where
  append : Bool := false
  buffer : Option Nat := none
  content_type : Option String := none
  content_disposition : Option String := none
  cache_control : Option String := none
deriving DecidableEq, Repr

/-- Mirrors `OpWrite::with_append`. -/
def OpWrite.with_append (a : OpWrite) (v : Bool) : OpWrite := { a with append := v }

/-- Mirrors `OpWrite::with_buffer`. -/
def OpWrite.with_buffer (a : OpWrite) (v : Nat) : OpWrite := { a with buffer := some v }

/-- Mirrors `OpWrite::with_content_type`. -/
def OpWrite.with_content_type (a : OpWrite) (v : String) : OpWrite :=
  { a with content_type := some v }

/-- Mirrors `OpWrite::with_content_disposition`. -/
def OpWrite.with_content_disposition (a : OpWrite) (v : String) : OpWrite :=
  { a with content_disposition := some v }

/-- Mirrors `OpWrite::with_cache_control`. -/
def OpWrite.with_cache_control (a : OpWrite) (v : String) : OpWrite :=
  { a with cache_control := some v }

/-- Mirrors `OpRead::with_range`. -/
def OpRead.with_range (a : OpRead) (v : BytesRange) : OpRead := { a with range := v }

/-- Mirrors `OpRead::with_if_match`. -/
def OpRead.with_if_match (a : OpRead) (v : String) : OpRead :=
  { a with if_match := some v }

/-- Mirrors `OpRead::with_if_none_match`. -/
def OpRead.with_if_none_match (a : OpRead) (v : String) : OpRead :=
  { a with if_none_match := some v }

/-- Mirrors `OpRead::with_version`. -/
def OpRead.with_version (a : OpRead) (v : String) : OpRead :=
  { a with version := some v }

/-- Stat-operation arguments (`OpStat`). -/
structure OpStat where
  if_match : Option String := none
  if_none_match : Option String := none
  version : Option String := none
deriving DecidableEq, Repr

/-- Mirrors `OpStat::with_if_match`. -/
def OpStat.with_if_match (a : OpStat) (v : String) : OpStat :=
  { a with if_match := some v }

/-- Mirrors `OpStat::with_if_none_match`. -/
def OpStat.with_if_none_match (a : OpStat) (v : String) : OpStat :=
  { a with if_none_match := some v }

/-- Mirrors `OpStat::with_version`. -/
def OpStat.with_version (a : OpStat) (v : String) : OpStat :=
  { a with version := some v }

/-- List-operation arguments (`OpList`); the metakey flag set is a `Nat`
bitmask. -/
structure OpList where
  limit : Option Nat := none
  start_after : Option String := none
  recursive : Bool := false
  metakey : Nat := 0
deriving DecidableEq, Repr

/-- Mirrors `OpList::with_limit`. -/
def OpList.with_limit (a : OpList) (v : Nat) : OpList := { a with limit := some v }

/-- Mirrors `OpList::with_start_after`. -/
def OpList.with_start_after (a : OpList) (v : String) : OpList :=
  { a with start_after := some v }

/-- Mirrors `OpList::with_recursive`. -/
def OpList.with_recursive (a : OpList) (v : Bool) : OpList := { a with recursive := v }

/-- Mirrors `OpList::with_metakey`. -/
def OpList.with_metakey (a : OpList) (v : Nat) : OpList := { a with metakey := v }

/-- Delete-operation arguments (`OpDelete`). -/
structure OpDelete where
  version : Option String := none
deriving DecidableEq, Repr

/-- Mirrors `OpDelete::with_version`. -/
def OpDelete.with_version (a : OpDelete) (v : String) : OpDelete :=
  { a with version := some v }

/-- Mirrors `OperatorFunction<T, R>`: backend handle, path, current args
and the execution function.  Nothing is executed while the value is being
configured. -/
structure OperatorFunction (T R : Type) where
  inner : Backend
  path : String
  args : T
  f : Backend → String → T → Except Error R

/-- Mirrors `OperatorFunction::map_args`: a functional update of the args,
keeping handle, path and execution function. -/
def OperatorFunction.map_args (x : OperatorFunction T R) (g : T → T) :
    OperatorFunction T R :=
  { inner := x.inner, path := x.path, args := g x.args, f := x.f }

/-- Mirrors `OperatorFunction::call`: the single terminal execution step. -/
def OperatorFunction.call (x : OperatorFunction T R) : Except Error R :=
  x.f x.inner x.path x.args

/-- Mirrors `FunctionWrite` (args also carry the bytes to write). -/
structure FunctionWrite where
  fn : OperatorFunction (OpWrite × List Nat) Unit

/-- Mirrors `FunctionWrite::append`. -/
def FunctionWrite.append (s : FunctionWrite) (v : Bool) : FunctionWrite :=
  ⟨s.fn.map_args fun (args, bs) => (args.with_append v, bs)⟩

/-- Mirrors `FunctionWrite::buffer`. -/
def FunctionWrite.buffer (s : FunctionWrite) (v : Nat) : FunctionWrite :=
  ⟨s.fn.map_args fun (args, bs) => (args.with_buffer v, bs)⟩

/-- Mirrors `FunctionWrite::content_type`. -/
def FunctionWrite.content_type (s : FunctionWrite) (v : String) : FunctionWrite :=
  ⟨s.fn.map_args fun (args, bs) => (args.with_content_type v, bs)⟩

/-- Mirrors `FunctionWrite::content_disposition`. -/
def FunctionWrite.content_disposition (s : FunctionWrite) (v : String) : FunctionWrite :=
  ⟨s.fn.map_args fun (args, bs) => (args.with_content_disposition v, bs)⟩

/-- Mirrors `FunctionWrite::cache_control`. -/
def FunctionWrite.cache_control (s : FunctionWrite) (v : String) : FunctionWrite :=
  ⟨s.fn.map_args fun (args, bs) => (args.with_cache_control v, bs)⟩

/-- Mirrors `FunctionWrite::call`. -/
def FunctionWrite.call (s : FunctionWrite) : Except Error Unit := s.fn.call

/-- Mirrors `FunctionRead`. -/
structure FunctionRead where
  fn : OperatorFunction OpRead (List Nat)

/-- Mirrors `FunctionRead::range`. -/
def FunctionRead.range (s : FunctionRead) (v : BytesRange) : FunctionRead :=
  ⟨s.fn.map_args fun args => args.with_range v⟩

/-- Mirrors `FunctionRead::call`. -/
def FunctionRead.call (s : FunctionRead) : Except Error (List Nat) := s.fn.call

/-- Mirrors `FunctionStat`. -/
structure FunctionStat where
  fn : OperatorFunction OpStat Metadata

/-- Mirrors `FunctionStat::if_match`. -/
def FunctionStat.if_match (s : FunctionStat) (v : String) : FunctionStat :=
  ⟨s.fn.map_args fun args => args.with_if_match v⟩

/-- Mirrors `FunctionStat::if_none_match`. -/
def FunctionStat.if_none_match (s : FunctionStat) (v : String) : FunctionStat :=
  ⟨s.fn.map_args fun args => args.with_if_none_match v⟩

/-- Mirrors `FunctionStat::version`. -/
def FunctionStat.version (s : FunctionStat) (v : String) : FunctionStat :=
  ⟨s.fn.map_args fun args => args.with_version v⟩

/-- Mirrors `FunctionStat::call`. -/
def FunctionStat.call (s : FunctionStat) : Except Error Metadata := s.fn.call

/-- Mirrors `FunctionList`. -/
structure FunctionList where
  fn : OperatorFunction OpList (List Entry)

/-- Mirrors `FunctionList::limit`. -/
def FunctionList.limit (s : FunctionList) (v : Nat) : FunctionList :=
  ⟨s.fn.map_args fun args => args.with_limit v⟩

/-- Mirrors `FunctionList::start_after`. -/
def FunctionList.start_after (s : FunctionList) (v : String) : FunctionList :=
  ⟨s.fn.map_args fun args => args.with_start_after v⟩

/-- Mirrors `FunctionList::recursive`. -/
def FunctionList.recursive (s : FunctionList) (v : Bool) : FunctionList :=
  ⟨s.fn.map_args fun args => args.with_recursive v⟩

/-- Mirrors `FunctionList::metakey`. -/
def FunctionList.metakey (s : FunctionList) (v : Nat) : FunctionList :=
  ⟨s.fn.map_args fun args => args.with_metakey v⟩

/-- Mirrors `FunctionList::call`. -/
def FunctionList.call (s : FunctionList) : Except Error (List Entry) := s.fn.call

/-- Mirrors `FunctionDelete`. -/
structure FunctionDelete where
  fn : OperatorFunction OpDelete Unit

/-- Mirrors `FunctionDelete::version`. -/
def FunctionDelete.version (s : FunctionDelete) (v : String) : FunctionDelete :=
  ⟨s.fn.map_args fun args => args.with_version v⟩

/-- Mirrors `FunctionDelete::call`. -/
def FunctionDelete.call (s : FunctionDelete) : Except Error Unit := s.fn.call

/-- A small concrete backend used to evaluate the embedded operations on
concrete inputs: every call succeeds, reads honor the requested size,
writes accept at most two bytes per call, and batch is supported with no
declared `batch_max_operations`. -/
def witBackend : Backend where
  statFn := fun p =>
    if endsWithSlash p then Except.ok ⟨EntryMode.DIR, 0⟩
    else Except.ok ⟨EntryMode.FILE, 4⟩
  readFn := fun _ r => Except.ok (List.range (r.size.getD 0))
  createDirFn := fun _ => Except.ok ()
  copyFn := fun _ _ => Except.ok ()
  renameFn := fun _ _ => Except.ok ()
  deleteFn := fun _ => Except.ok ()
  batchFn := fun ps => Except.ok (ps.map fun p => (p, Except.ok ()))
  listFn := fun _ _ => Except.ok [Except.ok ⟨"d/a"⟩, Except.ok ⟨"d/b"⟩]
  writeOpenFn := fun _ => Except.ok ()
  writeFn := fun l => Except.ok (min 2 l.length)
  closeFn := Except.ok ()
  capability_batch := true
  batch_max_operations := none

/-- A backend whose `stat` always reports `NotFound`. -/
def nfBackend : Backend :=
  { witBackend with statFn := fun _ => Except.error ⟨ErrorKind.NotFound, "not found"⟩ }

/-- A backend advertising `batch_max_operations = 3`. -/
def cexBackend : Backend :=
  { witBackend with batch_max_operations := some 3 }

/-- A backend whose lister creation always fails with `NotFound`. -/
def lcBackend : Backend :=
  { witBackend with
      listFn := fun _ _ => Except.error ⟨ErrorKind.NotFound, "no list"⟩ }

/-- Every chunk emitted by `chunksAcc n acc` (with `acc` still below the
chunk size) has at most `n` elements. -/
theorem chunksAcc_length_le {α : Type} {n : Nat} (hn : 0 < n) (l : List α) :
    ∀ acc : List α, acc.length < n → ∀ c ∈ chunksAcc n acc l, c.length ≤ n := by
  induction l with
  | nil =>
    intro acc hacc c hc
    rw [chunksAcc] at hc
    rcases he : acc.isEmpty <;> simp [he] at hc
    subst hc
    omega
  | cons x xs ih =>
    intro acc hacc c hc
    rw [chunksAcc] at hc
    by_cases hfull : n ≤ (acc ++ [x]).length
    · simp only [if_pos hfull] at hc
      rcases List.mem_cons.mp hc with h | h
      · subst h
        simp at hfull ⊢
        omega
      · exact ih [] hn c h
    · simp only [if_neg hfull] at hc
      exact ih (acc ++ [x]) (by simp at hfull ⊢; omega) c hc

/-- Every chunk produced by `chunksOf n` (for positive `n`) has at most
`n` elements. -/
theorem chunksOf_length_le {α : Type} {n : Nat} (hn : 0 < n) (l : List α) :
    ∀ c ∈ chunksOf n l, c.length ≤ n :=
  chunksAcc_length_le hn l [] (by simpa using hn)

/-- Chunk count of `chunksAcc n acc` (with `acc` still below the chunk
size): the ceiling of `(acc.length + length) / n`. -/
theorem chunksAcc_count {α : Type} {n : Nat} (hn : 0 < n) (l : List α) :
    ∀ acc : List α, acc.length < n →
      (chunksAcc n acc l).length = (acc.length + l.length + n - 1) / n := by
  induction l with
  | nil =>
    intro acc hacc
    rw [chunksAcc]
    rcases he : acc.isEmpty
    · simp only [Bool.false_eq_true, if_false, List.length_cons, List.length_nil]
      have hne : acc ≠ [] := by
        intro h; rw [h] at he; simp at he
      have h1 : 0 < acc.length := List.length_pos.mpr hne
      have : (acc.length + 0 + n - 1) / n = 1 := by
        rw [Nat.div_eq_sub_div hn (by omega)]
        have h2 : acc.length + 0 + n - 1 - n = acc.length - 1 := by omega
        rw [h2, Nat.div_eq_of_lt (by omega)]
      omega
    · have hae : acc = [] := List.isEmpty_iff.mp he
      subst hae
      simp only [if_true, List.length_nil]
      exact (Nat.div_eq_of_lt (by omega)).symm
  | cons x xs ih =>
    intro acc hacc
    rw [chunksAcc]
    by_cases hfull : n ≤ (acc ++ [x]).length
    · simp only [if_pos hfull, List.length_cons]
      rw [ih [] (by simpa using hn)]
      simp only [List.length_append, List.length_cons, List.length_nil] at hfull ⊢
      have hacl : acc.length + 1 = n := by omega
      have h3 : (acc.length + (xs.length + 1) + n - 1) / n = (xs.length + n - 1) / n + 1 := by
        rw [Nat.div_eq_sub_div hn (by omega)]
        have h4 : acc.length + (xs.length + 1) + n - 1 - n = xs.length + n - 1 := by omega
        rw [h4]
      have h0 : (0 + xs.length + n - 1) / n = (xs.length + n - 1) / n := by
        rw [Nat.zero_add]
      omega
    · simp only [if_neg hfull]
      rw [ih (acc ++ [x]) (by simp at hfull ⊢; omega)]
      simp only [List.length_append, List.length_cons, List.length_nil]
      congr 1
      omega

/-- `chunksOf n` (for positive `n`) produces exactly `⌈length / n⌉ =
(length + n - 1) / n` chunks. -/
theorem chunksOf_count {α : Type} {n : Nat} (hn : 0 < n) (l : List α) :
    (chunksOf n l).length = (l.length + n - 1) / n := by
  have h := chunksAcc_count hn l [] (by simpa using hn)
  simpa [chunksOf] using h

/-- Every batch request issued by `batchLoop` is one of the given chunks. -/
theorem batchLoop_trace (b : Backend) (cs : List (List String)) :
    ∀ t, BackendOp.batch t ∈ (batchLoop b cs).2 → t ∈ cs := by
  induction cs with
  | nil => intro t ht; simp [batchLoop] at ht
  | cons c cs ih =>
    intro t ht
    rw [batchLoop] at ht
    rcases hb : b.batchFn c with e | results <;> simp only [hb] at ht
    · simp at ht
      simp [ht]
    · rcases hfe : firstErr results with _ | e <;> simp only [hfe] at ht
      · simp at ht
        rcases ht with h | h
        · simp [h]
        · exact List.mem_cons_of_mem _ (ih t h)
      · simp at ht
        simp [ht]

/-- Every backend call issued by `deleteEach` is a single-path delete. -/
theorem deleteEach_trace (b : Backend) (ps : List String) :
    ∀ o ∈ (deleteEach b ps).2, ∃ q, o = BackendOp.delete q := by
  induction ps with
  | nil => intro o ho; simp [deleteEach] at ho
  | cons p ps ih =>
    intro o ho
    rw [deleteEach] at ho
    rcases hd : b.deleteFn p with e | u <;> simp only [hd] at ho
    · simp at ho
      exact ⟨p, ho⟩
    · simp at ho
      rcases ho with h | h
      · exact ⟨p, h⟩
      · exact ih o h

/-- `firstErr` over an appended reply list scans the first list first. -/
theorem firstErr_append (l₁ l₂ : List (String × Except Error Unit)) :
    firstErr (l₁ ++ l₂) =
      match firstErr l₁ with
      | some e => some e
      | none => firstErr l₂ := by
  induction l₁ with
  | nil => simp [firstErr]
  | cons x rest ih =>
    rcases x with ⟨p, r⟩
    rcases r with e | u <;> simp [firstErr, ih]

/-- When every batch call of the backend succeeds (with per-item results
given by `rs`), `batchLoop` returns the first failing per-item result (in
chunk order, then reply order) as its error, and on an error-free reply
sequence issues exactly one batch request per chunk. -/
theorem batchLoop_spec (b : Backend)
    (rs : List String → List (String × Except Error Unit))
    (hrs : ∀ c, b.batchFn c = Except.ok (rs c)) :
    ∀ cs : List (List String),
      (batchLoop b cs).1 =
        (match firstErr ((cs.map rs).flatten) with
         | some e => Except.error e
         | none => Except.ok ()) ∧
      (firstErr ((cs.map rs).flatten) = none →
        (batchLoop b cs).2 = cs.map BackendOp.batch) := by
  intro cs
  induction cs with
  | nil => simp [batchLoop, firstErr]
  | cons c cs ih =>
    rw [batchLoop]
    simp only [hrs c, List.map_cons, List.flatten_cons, firstErr_append]
    rcases hfe : firstErr (rs c) with _ | e <;> simp only [hfe]
    · exact ⟨ih.1, fun h => by simp only [ih.2 h, List.map_cons]⟩
    · simp

/-- C1: with capability `batch = true` and a positive limit `L`,
`remove_via` over `N` input paths groups the normalized paths into
consecutive chunks, issues only batch requests of at most `L` items,
surfaces the first failing per-item result (in chunk order, then reply
order) as the operation's error, and when no per-item result fails it
succeeds after issuing exactly `ceil(N/L)` batch requests. -/
theorem C1_remove_via_batch_chunks (op : Operator) (input : List String)
    (rs : List String → List (String × Except Error Unit))
    (hb : op.accessor.capability_batch = true)
    (hL : 0 < op.limit)
    (hrs : ∀ c, op.accessor.batchFn c = Except.ok (rs c)) :
    (∀ c, BackendOp.batch c ∈ (op.remove_via input).2 → c.length ≤ op.limit) ∧
    ((op.remove_via input).1 =
      match firstErr (((chunksOf op.limit (input.map normalize_path)).map rs).flatten) with
      | some e => Except.error e
      | none => Except.ok ()) ∧
    (firstErr (((chunksOf op.limit (input.map normalize_path)).map rs).flatten) = none →
      (op.remove_via input).1 = Except.ok () ∧
      (op.remove_via input).2.length = (input.length + op.limit - 1) / op.limit ∧
      ∀ o ∈ (op.remove_via input).2, ∃ c, o = BackendOp.batch c) := by
  have hrv : op.remove_via input =
      batchLoop op.accessor (chunksOf op.limit (input.map normalize_path)) := by
    simp [Operator.remove_via, hb]
  rw [hrv]
  have hspec := batchLoop_spec op.accessor rs hrs
    (chunksOf op.limit (input.map normalize_path))
  refine ⟨?_, hspec.1, ?_⟩
  · intro c hc
    exact chunksOf_length_le hL _ c (batchLoop_trace op.accessor _ c hc)
  · intro h
    refine ⟨?_, ?_, ?_⟩
    · rw [hspec.1, h]
    · rw [hspec.2 h, List.length_map, chunksOf_count hL, List.length_map]
    · intro o ho
      rw [hspec.2 h] at ho
      rcases List.mem_map.mp ho with ⟨c, _, hco⟩
      exact ⟨c, hco.symm⟩

/-- Witness for C1 at a concrete backend: three paths, limit 1000, one
batch request, success. -/
theorem C1_remove_via_batch_chunks_witness :
    ((Operator.from_inner witBackend).remove_via ["a", "b", "c"]).1 = Except.ok () ∧
    ((Operator.from_inner witBackend).remove_via ["a", "b", "c"]).2.length = 1 := by
  have h := C1_remove_via_batch_chunks (Operator.from_inner witBackend)
    ["a", "b", "c"] (fun ps => ps.map fun p => (p, Except.ok ()))
    rfl (by decide) (fun c => rfl)
  have h3 := h.2.2 (by decide)
  refine ⟨h3.1, ?_⟩
  rw [h3.2.1]
  decide

/-- C9 counterexample: an operator built (without `with_limit`) over an
accessor advertising `batch_max_operations = 3` has limit 3, not 1000. -/
theorem C9_default_limit_counterexample :
    (Operator.from_inner cexBackend).limit = 3 ∧
    (Operator.from_inner cexBackend).limit ≠ 1000 := by
  constructor <;> decide

/-- C9 (amended): for an operator on which `with_limit` has not been
called, the batch chunk-size limit equals the accessor capability's
`batch_max_operations` when specified and 1000 otherwise; it equals 1000
exactly when the capability specifies nothing or specifies 1000; and every
batch request issued by `remove_via` respects that limit. -/
theorem C9_default_limit_amended (b : Backend)
    (hpos : 0 < b.batch_max_operations.getD 1000) :
    (Operator.from_inner b).limit = b.batch_max_operations.getD 1000 ∧
    ((Operator.from_inner b).limit = 1000 ↔
      (b.batch_max_operations = none ∨ b.batch_max_operations = some 1000)) ∧
    (∀ input c, BackendOp.batch c ∈ ((Operator.from_inner b).remove_via input).2 →
      c.length ≤ b.batch_max_operations.getD 1000) := by
  refine ⟨rfl, ?_, ?_⟩
  · cases h : b.batch_max_operations with
    | none => simp [Operator.from_inner, h]
    | some n => simp [Operator.from_inner, h]
  · intro input c hc
    by_cases hb : b.capability_batch
    · have hrv : (Operator.from_inner b).remove_via input =
          batchLoop b (chunksOf (Operator.from_inner b).limit (input.map normalize_path)) := by
        simp [Operator.remove_via, Operator.from_inner, hb]
      rw [hrv] at hc
      exact chunksOf_length_le hpos _ c (batchLoop_trace b _ c hc)
    · have hrv : (Operator.from_inner b).remove_via input =
          deleteEach b (input.map normalize_path) := by
        simp [Operator.remove_via, Operator.from_inner, hb]
      rw [hrv] at hc
      rcases deleteEach_trace b _ _ hc with ⟨q, hq⟩
      exact absurd hq (by simp)

/-- Witness for the amended C9 at a concrete accessor that advertises
`batch_max_operations = 3`. -/
theorem C9_default_limit_amended_witness :
    (Operator.from_inner cexBackend).limit = cexBackend.batch_max_operations.getD 1000 :=
  (C9_default_limit_amended cexBackend (by decide)).1

/-- C3: for a normalized file path `x` (not ending in a slash), both
`copy(x, x)` and `rename(x, x)` fail with `IsSameFile` and issue no
backend call at all (empty trace). -/
theorem C3_copy_rename_same_file (op : Operator) (x : String)
    (hn : normalize_path x = x) (hf : endsWithSlash x = false) :
    op.copy x x =
      (Except.error ⟨ErrorKind.IsSameFile, "from and to paths are same"⟩, []) ∧
    op.rename x x =
      (Except.error ⟨ErrorKind.IsSameFile, "from and to paths are same"⟩, []) := by
  constructor
  · simp [Operator.copy, hn, validate_path, hf]
  · simp [Operator.rename, hn, validate_path, hf]

/-- Witness for C3 at the concrete file path `a/b`. -/
theorem C3_copy_rename_same_file_witness :
    (Operator.from_inner witBackend).copy "a/b" "a/b" =
      (Except.error ⟨ErrorKind.IsSameFile, "from and to paths are same"⟩, []) ∧
    (Operator.from_inner witBackend).rename "a/b" "a/b" =
      (Except.error ⟨ErrorKind.IsSameFile, "from and to paths are same"⟩, []) :=
  C3_copy_rename_same_file (Operator.from_inner witBackend) "a/b"
    (by decide) (by decide)

/-- C4: when the initial `stat` of `remove_all` fails with `NotFound` the
call succeeds, and with any other error that error is propagated; in both
cases the stat is the only backend operation performed. -/
theorem C4_remove_all_absent (op : Operator) (path : String) (e : Error)
    (hstat : op.accessor.statFn (normalize_path path) = Except.error e) :
    (e.kind = ErrorKind.NotFound →
      op.remove_all path = (Except.ok (), [BackendOp.stat (normalize_path path)])) ∧
    (e.kind ≠ ErrorKind.NotFound →
      op.remove_all path = (Except.error e, [BackendOp.stat (normalize_path path)])) := by
  constructor <;> intro hk <;> simp [Operator.remove_all, hstat, hk]

/-- Witness for C4 at a backend whose `stat` always reports `NotFound`. -/
theorem C4_remove_all_absent_witness :
    (Operator.from_inner nfBackend).remove_all "abc" =
      (Except.ok (), [BackendOp.stat (normalize_path "abc")]) :=
  (C4_remove_all_absent (Operator.from_inner nfBackend) "abc"
    ⟨ErrorKind.NotFound, "not found"⟩ rfl).1 rfl

/-- C8: a path validates as a directory exactly when it ends in `/` and as
a file exactly when it does not; `read_with` and `write_with` on a
(normalized) path ending in `/` fail with `IsADirectory`, and `create_dir`
on a (normalized) path not ending in `/` fails with `NotADirectory`, all
with an empty backend trace. -/
theorem C8_path_mode_validation (op : Operator) (p q : String)
    (args : OpRead) (bs : List Nat)
    (hp : normalize_path p = p) (hps : endsWithSlash p = true)
    (hq : normalize_path q = q) (hqs : endsWithSlash q = false) :
    (∀ r : String, validate_path r EntryMode.DIR = endsWithSlash r ∧
      validate_path r EntryMode.FILE = !endsWithSlash r) ∧
    op.read_with p args =
      (Except.error ⟨ErrorKind.IsADirectory, "read path is a directory"⟩, []) ∧
    op.write_with p bs =
      some (Except.error ⟨ErrorKind.IsADirectory, "write path is a directory"⟩, []) ∧
    op.create_dir q =
      (Except.error ⟨ErrorKind.NotADirectory,
        "the path trying to create should end with `/`"⟩, []) := by
  refine ⟨fun r => ⟨rfl, rfl⟩, ?_, ?_, ?_⟩
  · simp [Operator.read_with, hp, validate_path, hps]
  · simp [Operator.write_with, hp, validate_path, hps]
  · simp [Operator.create_dir, hq, validate_path, hqs]

/-- Witness for C8 at the directory path `d/` and the file path `f`. -/
theorem C8_path_mode_validation_witness :
    (Operator.from_inner witBackend).read_with "d/" {} =
      (Except.error ⟨ErrorKind.IsADirectory, "read path is a directory"⟩, []) ∧
    (Operator.from_inner witBackend).write_with "d/" [0] =
      some (Except.error ⟨ErrorKind.IsADirectory, "write path is a directory"⟩, []) ∧
    (Operator.from_inner witBackend).create_dir "f" =
      (Except.error ⟨ErrorKind.NotADirectory,
        "the path trying to create should end with `/`"⟩, []) :=
  (C8_path_mode_validation (Operator.from_inner witBackend) "d/" "f" {} [0]
    (by decide) (by decide) (by decide) (by decide)).2

/-- C10: when the root lister was created successfully, `check` succeeds
when the listing is empty, when its first item is an entry, and when its
first item is a `NotFound` error; it returns an error exactly when the
first item is an error whose kind is not `NotFound` (and then returns that
very error). -/
theorem C10_check_root_listing (op : Operator) (items : List (Except Error Entry))
    (hl : op.accessor.listFn (normalize_path "/") false = Except.ok items) :
    (∀ e, op.check = Except.error e ↔
      (items.head? = some (Except.error e) ∧ e.kind ≠ ErrorKind.NotFound)) ∧
    (items.head? = none → op.check = Except.ok ()) ∧
    (∀ ent, items.head? = some (Except.ok ent) → op.check = Except.ok ()) ∧
    (∀ e, items.head? = some (Except.error e) → e.kind = ErrorKind.NotFound →
      op.check = Except.ok ()) := by
  have hc : op.check =
      (match items.head? with
       | some (Except.error e) =>
         if e.kind ≠ ErrorKind.NotFound then Except.error e else Except.ok ()
       | _ => Except.ok ()) := by
    rw [Operator.check, hl]
  rcases hh : items.head? with _ | x
  · rw [hh] at hc
    simp [hc]
  · rcases x with e | ent
    · rw [hh] at hc
      by_cases hk : e.kind = ErrorKind.NotFound
      · simp only [hk] at hc
        simp only [ne_eq, not_true_eq_false, if_false] at hc
        simp [hc, hk]
      · simp only [ne_eq, hk, not_false_eq_true, if_true] at hc
        refine ⟨?_, by simp [hc], by simp [hc], ?_⟩
        · intro e2
          rw [hc]
          constructor
          · intro he2
            cases he2
            exact ⟨rfl, hk⟩
          · rintro ⟨h1, _⟩
            cases h1
            rfl
        · intro e2 he2 hk2
          cases he2
          exact absurd hk2 hk
    · rw [hh] at hc
      simp [hc]

/-- Witness for C10 at a backend whose root listing's first item is a
successful entry. -/
theorem C10_check_root_listing_witness :
    (Operator.from_inner witBackend).check = Except.ok () :=
  (C10_check_root_listing (Operator.from_inner witBackend)
    [Except.ok ⟨"d/a"⟩, Except.ok ⟨"d/b"⟩] rfl).2.2.1 ⟨"d/a"⟩ rfl

/-- C7: every configuration method of the deferred-operation builders
(`append`, `buffer`, `content_type`, `content_disposition`,
`cache_control`, `range`, `if_match`, `if_none_match`, `version`, `limit`,
`start_after`, `recursive`, `metakey`) returns a builder whose backend
handle, path and execution function are unchanged and whose args value is
the corresponding functional update; and the only place the execution
function is applied is the terminal `call`, which evaluates it on the held
handle, path and args. -/
theorem C7_builder_functional_update (w : FunctionWrite) (rd : FunctionRead)
    (st : FunctionStat) (ls : FunctionList) (dl : FunctionDelete)
    (vb : Bool) (vn : Nat) (vs : String) (vr : BytesRange) :
    ((w.append vb).fn.inner = w.fn.inner ∧ (w.append vb).fn.path = w.fn.path ∧
      (w.append vb).fn.f = w.fn.f ∧
      (w.append vb).fn.args = (w.fn.args.1.with_append vb, w.fn.args.2)) ∧
    ((w.buffer vn).fn.inner = w.fn.inner ∧ (w.buffer vn).fn.path = w.fn.path ∧
      (w.buffer vn).fn.f = w.fn.f ∧
      (w.buffer vn).fn.args = (w.fn.args.1.with_buffer vn, w.fn.args.2)) ∧
    ((w.content_type vs).fn.inner = w.fn.inner ∧
      (w.content_type vs).fn.path = w.fn.path ∧
      (w.content_type vs).fn.f = w.fn.f ∧
      (w.content_type vs).fn.args = (w.fn.args.1.with_content_type vs, w.fn.args.2)) ∧
    ((w.content_disposition vs).fn.inner = w.fn.inner ∧
      (w.content_disposition vs).fn.path = w.fn.path ∧
      (w.content_disposition vs).fn.f = w.fn.f ∧
      (w.content_disposition vs).fn.args =
        (w.fn.args.1.with_content_disposition vs, w.fn.args.2)) ∧
    ((w.cache_control vs).fn.inner = w.fn.inner ∧
      (w.cache_control vs).fn.path = w.fn.path ∧
      (w.cache_control vs).fn.f = w.fn.f ∧
      (w.cache_control vs).fn.args = (w.fn.args.1.with_cache_control vs, w.fn.args.2)) ∧
    ((rd.range vr).fn.inner = rd.fn.inner ∧ (rd.range vr).fn.path = rd.fn.path ∧
      (rd.range vr).fn.f = rd.fn.f ∧
      (rd.range vr).fn.args = rd.fn.args.with_range vr) ∧
    ((st.if_match vs).fn.inner = st.fn.inner ∧ (st.if_match vs).fn.path = st.fn.path ∧
      (st.if_match vs).fn.f = st.fn.f ∧
      (st.if_match vs).fn.args = st.fn.args.with_if_match vs) ∧
    ((st.if_none_match vs).fn.inner = st.fn.inner ∧
      (st.if_none_match vs).fn.path = st.fn.path ∧
      (st.if_none_match vs).fn.f = st.fn.f ∧
      (st.if_none_match vs).fn.args = st.fn.args.with_if_none_match vs) ∧
    ((st.version vs).fn.inner = st.fn.inner ∧ (st.version vs).fn.path = st.fn.path ∧
      (st.version vs).fn.f = st.fn.f ∧
      (st.version vs).fn.args = st.fn.args.with_version vs) ∧
    ((ls.limit vn).fn.inner = ls.fn.inner ∧ (ls.limit vn).fn.path = ls.fn.path ∧
      (ls.limit vn).fn.f = ls.fn.f ∧
      (ls.limit vn).fn.args = ls.fn.args.with_limit vn) ∧
    ((ls.start_after vs).fn.inner = ls.fn.inner ∧
      (ls.start_after vs).fn.path = ls.fn.path ∧
      (ls.start_after vs).fn.f = ls.fn.f ∧
      (ls.start_after vs).fn.args = ls.fn.args.with_start_after vs) ∧
    ((ls.recursive vb).fn.inner = ls.fn.inner ∧
      (ls.recursive vb).fn.path = ls.fn.path ∧
      (ls.recursive vb).fn.f = ls.fn.f ∧
      (ls.recursive vb).fn.args = ls.fn.args.with_recursive vb) ∧
    ((ls.metakey vn).fn.inner = ls.fn.inner ∧ (ls.metakey vn).fn.path = ls.fn.path ∧
      (ls.metakey vn).fn.f = ls.fn.f ∧
      (ls.metakey vn).fn.args = ls.fn.args.with_metakey vn) ∧
    ((dl.version vs).fn.inner = dl.fn.inner ∧ (dl.version vs).fn.path = dl.fn.path ∧
      (dl.version vs).fn.f = dl.fn.f ∧
      (dl.version vs).fn.args = dl.fn.args.with_version vs) ∧
    (w.call = w.fn.f w.fn.inner w.fn.path w.fn.args ∧
      rd.call = rd.fn.f rd.fn.inner rd.fn.path rd.fn.args ∧
      st.call = st.fn.f st.fn.inner st.fn.path st.fn.args ∧
      ls.call = ls.fn.f ls.fn.inner ls.fn.path ls.fn.args ∧
      dl.call = dl.fn.f dl.fn.inner dl.fn.path dl.fn.args) := by
  repeat' apply And.intro
  all_goals rfl

/-- C2: `read_with` on a (normalized) file path with no bounded range first
issues a `stat` to obtain the content length, completes the range to
`[0, content_length)`, issues the read with exactly that range, and (for a
backend whose reads honor the requested size) any successfully returned
buffer has length `content_length`; a failing read propagates its error. -/
theorem C2_read_unbounded_range (op : Operator) (p : String) (args : OpRead)
    (meta : Metadata)
    (hp : normalize_path p = p) (hf : endsWithSlash p = false)
    (hrange : args.range = ⟨none, none⟩)
    (hstat : op.accessor.statFn p = Except.ok meta)
    (hread : ∀ r bs, op.accessor.readFn p r = Except.ok bs →
      ∀ sz, r.size = some sz → bs.length = sz) :
    op.read_with p args =
      (op.accessor.readFn p ⟨some 0, some meta.content_length⟩,
        [BackendOp.stat p, BackendOp.read p ⟨some 0, some meta.content_length⟩]) ∧
    (∀ bs, (op.read_with p args).1 = Except.ok bs →
      bs.length = meta.content_length) := by
  have h1 : op.read_with p args =
      (op.accessor.readFn p ⟨some 0, some meta.content_length⟩,
        [BackendOp.stat p, BackendOp.read p ⟨some 0, some meta.content_length⟩]) := by
    rcases hr : op.accessor.readFn p ⟨some 0, some meta.content_length⟩ with e | bs <;>
      simp [Operator.read_with, hp, validate_path, hf, hrange, hstat,
        BytesRange.complete, hr]
  refine ⟨h1, ?_⟩
  intro bs hb
  rw [h1] at hb
  exact hread _ bs hb _ rfl

/-- Witness for C2 at a backend that honors read ranges: a file of length
4 read with default (unbounded) arguments. -/
theorem C2_read_unbounded_range_witness :
    (Operator.from_inner witBackend).read_with "f" {} =
      ((Operator.from_inner witBackend).accessor.readFn "f" ⟨some 0, some 4⟩,
        [BackendOp.stat "f", BackendOp.read "f" ⟨some 0, some 4⟩]) :=
  (C2_read_unbounded_range (Operator.from_inner witBackend) "f" {}
    ⟨EntryMode.FILE, 4⟩ (by decide) (by decide) rfl rfl
    (fun r bs h sz hsz => by
      have h2 : Except.ok (List.range (r.size.getD 0)) = Except.ok bs := h
      injection h2 with h3
      rw [← h3, hsz]
      simp)).1

/-- For a writer whose successful calls always consume at least one byte
(and never more than remain), the partial-write loop terminates within
`length + 1` steps; on success the consumed chunks concatenate to the whole
buffer, and on failure the chunks consumed so far are a prefix of the
buffer and the failing call saw exactly the unconsumed suffix. -/
theorem writeLoop_spec (w : List Nat → Except Error Nat)
    (hw : ∀ l : List Nat, l ≠ [] → ∀ n, w l = Except.ok n → 0 < n ∧ n ≤ l.length) :
    ∀ fuel bs, bs.length < fuel →
      ∃ pr, writeLoop w fuel bs = some pr ∧
        (pr.1 = Except.ok () → pr.2.flatten = bs) ∧
        (∀ e, pr.1 = Except.error e →
          ∃ rest, rest ≠ [] ∧ w rest = Except.error e ∧
            pr.2.flatten ++ rest = bs) := by
  intro fuel
  induction fuel with
  | zero => intro bs h; omega
  | succ f ih =>
    intro bs h
    rcases bs with _ | ⟨b, bs'⟩
    · exact ⟨(Except.ok (), []), rfl, fun _ => rfl,
        fun e he => Except.noConfusion he⟩
    · rcases hwc : w (b :: bs') with e | n
      · refine ⟨(Except.error e, []), ?_, ?_, ?_⟩
        · simp [writeLoop, hwc]
        · intro h1; exact Except.noConfusion h1
        · intro e2 he2
          injection he2 with he3
          exact ⟨b :: bs', by simp, he3 ▸ hwc, by simp⟩
      · obtain ⟨hn0, hnle⟩ := hw (b :: bs') (by simp) n hwc
        have hlt : ((b :: bs').drop n).length < f := by
          simp only [List.length_drop, List.length_cons] at *
          omega
        obtain ⟨pr, hpr, hok, herr⟩ := ih ((b :: bs').drop n) hlt
        refine ⟨(pr.1, (b :: bs').take n :: pr.2), ?_, ?_, ?_⟩
        · simp [writeLoop, hwc, hpr]
        · intro h1
          simp only [List.flatten_cons]
          rw [hok h1, List.take_append_drop]
        · intro e he
          obtain ⟨rest, hr1, hr2, hr3⟩ := herr e he
          refine ⟨rest, hr1, hr2, ?_⟩
          simp only [List.flatten_cons]
          rw [List.append_assoc, hr3, List.take_append_drop]

/-- C6: on a (normalized) file path with a successfully opened writer whose
successful partial writes always make progress, `write_with` loops
advancing by the reported consumed counts; if the loop consumes the whole
buffer (the consumed chunks concatenate to the input), exactly one `close`
is issued, as the last backend call, and the close's result (error or
success) is the operation's result; if some partial write fails, that error
is the operation's result and no close is issued. -/
theorem C6_write_with_loop_close (op : Operator) (p : String) (bs : List Nat)
    (hp : normalize_path p = p) (hf : endsWithSlash p = false)
    (hopen : op.accessor.writeOpenFn p = Except.ok ())
    (hw : ∀ l : List Nat, l ≠ [] → ∀ n, op.accessor.writeFn l = Except.ok n →
      0 < n ∧ n ≤ l.length) :
    ∃ pr, writeLoop op.accessor.writeFn (bs.length + 1) bs = some pr ∧
      (pr.1 = Except.ok () →
        pr.2.flatten = bs ∧
        op.write_with p bs = some (op.accessor.closeFn,
          BackendOp.write_open p :: pr.2.map BackendOp.write_chunk
            ++ [BackendOp.close]) ∧
        (BackendOp.write_open p :: pr.2.map BackendOp.write_chunk
            ++ [BackendOp.close]).count BackendOp.close = 1 ∧
        (BackendOp.write_open p :: pr.2.map BackendOp.write_chunk
            ++ [BackendOp.close]).getLast? = some BackendOp.close) ∧
      (∀ e, pr.1 = Except.error e →
        op.write_with p bs = some (Except.error e,
          BackendOp.write_open p :: pr.2.map BackendOp.write_chunk) ∧
        BackendOp.close ∉ BackendOp.write_open p :: pr.2.map BackendOp.write_chunk ∧
        ∃ rest, rest ≠ [] ∧ op.accessor.writeFn rest = Except.error e ∧
          pr.2.flatten ++ rest = bs) := by
  obtain ⟨pr, hpr, hok, herr⟩ :=
    writeLoop_spec op.accessor.writeFn hw (bs.length + 1) bs (by omega)
  obtain ⟨r, chunks⟩ := pr
  refine ⟨(r, chunks), hpr, ?_, ?_⟩
  · intro h1
    simp only at h1
    subst h1
    have hfl := hok rfl
    have hnotin : BackendOp.close ∉ chunks.map BackendOp.write_chunk := by simp
    refine ⟨hfl, ?_, ?_, ?_⟩
    · rcases hc : op.accessor.closeFn with e | u
      · simp [Operator.write_with, hp, validate_path, hf, hopen, hpr, hc]
      · cases u
        simp [Operator.write_with, hp, validate_path, hf, hopen, hpr, hc]
    · have hceq : (BackendOp.write_open p :: chunks.map BackendOp.write_chunk
          ++ [BackendOp.close]).count BackendOp.close
          = (chunks.map BackendOp.write_chunk).count BackendOp.close + 1 := by
        simp [List.count_cons, List.count_append]
      rw [hceq, List.count_eq_zero.mpr hnotin]
    · have hsplit : BackendOp.write_open p :: chunks.map BackendOp.write_chunk
          ++ [BackendOp.close]
          = (BackendOp.write_open p :: chunks.map BackendOp.write_chunk)
            ++ [BackendOp.close] := rfl
      rw [hsplit]
      exact List.getLast?_concat _
  · intro e he
    simp only at he
    subst he
    obtain ⟨rest, h1, h2, h3⟩ := herr e rfl
    refine ⟨?_, ?_, rest, h1, h2, h3⟩
    · simp [Operator.write_with, hp, validate_path, hf, hopen, hpr]
    · simp

/-- Witness for C6: a writer accepting at most two bytes per call persists
a three-byte buffer in two chunks and closes exactly once. -/
theorem C6_write_with_loop_close_witness :
    (Operator.from_inner witBackend).write_with "f" [1, 2, 3] =
      some (Except.ok (), [BackendOp.write_open "f", BackendOp.write_chunk [1, 2],
        BackendOp.write_chunk [3], BackendOp.close]) := by
  obtain ⟨pr, hpr, hok, herr⟩ :=
    C6_write_with_loop_close (Operator.from_inner witBackend) "f" [1, 2, 3]
      (by decide) (by decide) rfl
      (fun l hl n hn => by
        have h2 : Except.ok (min 2 l.length) = Except.ok n := hn
        injection h2 with h3
        have hlp : 0 < l.length := List.length_pos.mpr hl
        omega)
  have hc : writeLoop witBackend.writeFn ([1, 2, 3].length + 1) [1, 2, 3] =
      some (Except.ok (), [[1, 2], [3]]) := rfl
  have hpr2 : pr = (Except.ok (), [[1, 2], [3]]) := by
    have h4 := hpr.symm.trans hc
    injection h4
  subst hpr2
  exact (hok rfl).2.1

/-- Every backend call issued by `removeAllSeq` deletes the normalized
path of one of the successfully listed entries. -/
theorem removeAllSeq_trace (b : Backend) (items : List (Except Error Entry)) :
    ∀ o ∈ (removeAllSeq b items).2, ∃ ent, Except.ok ent ∈ items ∧
      o = BackendOp.delete (normalize_path ent.path) := by
  induction items with
  | nil => intro o ho; simp [removeAllSeq] at ho
  | cons x rest ih =>
    intro o ho
    rcases x with e | ent
    · simp [removeAllSeq] at ho
    · rw [removeAllSeq] at ho
      rcases hd : b.deleteFn (normalize_path ent.path) with e | u <;>
        simp only [hd] at ho
      · simp at ho
        exact ⟨ent, by simp, ho⟩
      · simp at ho
        rcases ho with h | h
        · exact ⟨ent, by simp, h⟩
        · obtain ⟨ent2, hm, he⟩ := ih o h
          exact ⟨ent2, by simp [hm], he⟩

/-- Every backend call issued by `removeAllBatchGo` is a batch over paths
of entries taken from the pending accumulator or the successfully listed
stream items. -/
theorem removeAllBatchGo_trace (b : Backend) (limit : Nat) :
    ∀ (items : List (Except Error Entry)) (acc : List Entry),
      ∀ o ∈ (removeAllBatchGo b limit acc items).2,
        ∃ c, o = BackendOp.batch c ∧
          ∀ q ∈ c, ∃ ent, ent.path = q ∧ (ent ∈ acc ∨ Except.ok ent ∈ items) := by
  intro items
  induction items with
  | nil =>
    intro acc o ho
    rw [removeAllBatchGo] at ho
    by_cases hacc : acc = []
    · simp [hacc] at ho
    · rcases hbf : b.batchFn (acc.map Entry.path) with e | results <;>
        simp only [if_neg hacc, hbf] at ho
      · simp at ho
        refine ⟨acc.map Entry.path, ho, fun q hq => ?_⟩
        rcases List.mem_map.mp hq with ⟨ent, hm, hp⟩
        exact ⟨ent, hp, Or.inl hm⟩
      · rcases hfe : firstErr results with _ | e <;> simp only [hfe] at ho <;>
          simp at ho <;>
          refine ⟨acc.map Entry.path, ho, fun q hq => ?_⟩ <;>
          rcases List.mem_map.mp hq with ⟨ent, hm, hp⟩ <;>
          exact ⟨ent, hp, Or.inl hm⟩
  | cons x rest ih =>
    intro acc o ho
    rcases x with e | ent
    · simp [removeAllBatchGo] at ho
    · rw [removeAllBatchGo] at ho
      simp only at ho
      by_cases hfull : limit ≤ (acc ++ [ent]).length
      · simp only [if_pos hfull] at ho
        rcases hbf : b.batchFn ((acc ++ [ent]).map Entry.path) with e2 | results <;>
          simp only [hbf] at ho
        · simp at ho
          refine ⟨List.map Entry.path acc ++ [ent.path], ho, fun q hq => ?_⟩
          rcases List.mem_append.mp hq with h | h
          · rcases List.mem_map.mp h with ⟨ent2, hm, hp⟩
            exact ⟨ent2, hp, Or.inl hm⟩
          · simp at h
            exact ⟨ent, h.symm, Or.inr (by simp)⟩
        · rcases hfe : firstErr results with _ | e2 <;> simp only [hfe] at ho
          · simp at ho
            rcases ho with h | h
            · refine ⟨List.map Entry.path acc ++ [ent.path], h, fun q hq => ?_⟩
              rcases List.mem_append.mp hq with h2 | h2
              · rcases List.mem_map.mp h2 with ⟨ent2, hm, hp⟩
                exact ⟨ent2, hp, Or.inl hm⟩
              · simp at h2
                exact ⟨ent, h2.symm, Or.inr (by simp)⟩
            · obtain ⟨c, hco, hc⟩ := ih [] o h
              refine ⟨c, hco, fun q hq => ?_⟩
              obtain ⟨ent2, hp, hm⟩ := hc q hq
              rcases hm with h2 | h2
              · simp at h2
              · exact ⟨ent2, hp, Or.inr (by simp [h2])⟩
          · simp at ho
            refine ⟨List.map Entry.path acc ++ [ent.path], ho, fun q hq => ?_⟩
            rcases List.mem_append.mp hq with h | h
            · rcases List.mem_map.mp h with ⟨ent2, hm, hp⟩
              exact ⟨ent2, hp, Or.inl hm⟩
            · simp at h
              exact ⟨ent, h.symm, Or.inr (by simp)⟩
      · simp only [if_neg hfull] at ho
        obtain ⟨c, hco, hc⟩ := ih (acc ++ [ent]) o ho
        refine ⟨c, hco, fun q hq => ?_⟩
        obtain ⟨ent2, hp, hm⟩ := hc q hq
        rcases hm with h2 | h2
        · rcases List.mem_append.mp h2 with h3 | h3
          · exact ⟨ent2, hp, Or.inl h3⟩
          · simp at h3
            subst h3
            exact ⟨ent2, hp, Or.inr (by simp)⟩
        · exact ⟨ent2, hp, Or.inr (by simp [h2])⟩

/-- C5: for a successful `remove_all` of a directory (the stat reports
`DIR`, the recursive listing succeeds, and no listed child is the
directory itself), the backend trace is the stat, the listing, the child
deletions, and finally the directory's own delete: that delete is the
last backend operation, occurs exactly once, and no other trace operation
(single delete or batch) targets the directory path. -/
theorem C5_remove_all_dir_delete_last (op : Operator) (path : String)
    (meta : Metadata) (items : List (Except Error Entry))
    (hstat : op.accessor.statFn (normalize_path path) = Except.ok meta)
    (hmode : meta.mode = EntryMode.DIR)
    (hlist : op.accessor.listFn (normalize_path path) true = Except.ok items)
    (hchild : ∀ ent : Entry, Except.ok ent ∈ items →
      normalize_path ent.path ≠ normalize_path path ∧
      ent.path ≠ normalize_path path)
    (hok : (op.remove_all path).1 = Except.ok ()) :
    ∃ t, (op.remove_all path).2 =
        BackendOp.stat (normalize_path path)
          :: BackendOp.list (normalize_path path) true
          :: t ++ [BackendOp.delete (normalize_path path)] ∧
      (op.remove_all path).2.getLast? =
        some (BackendOp.delete (normalize_path path)) ∧
      (op.remove_all path).2.count (BackendOp.delete (normalize_path path)) = 1 ∧
      (∀ o ∈ t, o ≠ BackendOp.delete (normalize_path path)) ∧
      (∀ c, BackendOp.batch c ∈ t → normalize_path path ∉ c) := by
  by_cases hb : op.accessor.capability_batch
  · rcases hgo : removeAllBatchGo op.accessor op.limit [] items with ⟨r, t0⟩
    have htr := removeAllBatchGo_trace op.accessor op.limit items []
    rw [hgo] at htr
    rcases r with e | u
    · exfalso
      have hres : (op.remove_all path).1 = Except.error e := by
        simp [Operator.remove_all, hstat, hmode, hlist, hb, hgo]
      rw [hres] at hok
      exact Except.noConfusion hok
    · cases u
      rcases hd : op.accessor.deleteFn (normalize_path path) with e | u2
      · exfalso
        have hres : (op.remove_all path).1 = Except.error e := by
          simp [Operator.remove_all, hstat, hmode, hlist, hb, hgo, hd]
        rw [hres] at hok
        exact Except.noConfusion hok
      · cases u2
        have hra : (op.remove_all path).2 =
            BackendOp.stat (normalize_path path)
              :: BackendOp.list (normalize_path path) true
              :: t0 ++ [BackendOp.delete (normalize_path path)] := by
          simp [Operator.remove_all, hstat, hmode, hlist, hb, hgo, hd]
        have hnot : ∀ o ∈ t0, o ≠ BackendOp.delete (normalize_path path) := by
          intro o ho
          obtain ⟨c, hco, _⟩ := htr o ho
          rw [hco]
          simp
        have hbat : ∀ c, BackendOp.batch c ∈ t0 → normalize_path path ∉ c := by
          intro c hcmem hqc
          obtain ⟨c2, hco, hmem⟩ := htr _ hcmem
          injection hco with hcc
          subst hcc
          obtain ⟨ent, hp, hm⟩ := hmem _ hqc
          rcases hm with h2 | h2
          · simp at h2
          · exact (hchild ent h2).2 hp
        refine ⟨t0, hra, ?_, ?_, hnot, hbat⟩
        · rw [hra]
          exact List.getLast?_concat _
        · rw [hra]
          have hnm : BackendOp.delete (normalize_path path) ∉ t0 :=
            fun hmem => (hnot _ hmem) rfl
          simp [List.count_cons, List.count_append, List.count_eq_zero.mpr hnm]
  · rcases hgo : removeAllSeq op.accessor items with ⟨r, t0⟩
    have htr := removeAllSeq_trace op.accessor items
    rw [hgo] at htr
    rcases r with e | u
    · exfalso
      have hres : (op.remove_all path).1 = Except.error e := by
        simp [Operator.remove_all, hstat, hmode, hlist, hb, hgo]
      rw [hres] at hok
      exact Except.noConfusion hok
    · cases u
      rcases hd : op.accessor.deleteFn (normalize_path path) with e | u2
      · exfalso
        have hres : (op.remove_all path).1 = Except.error e := by
          simp [Operator.remove_all, hstat, hmode, hlist, hb, hgo, hd]
        rw [hres] at hok
        exact Except.noConfusion hok
      · cases u2
        have hra : (op.remove_all path).2 =
            BackendOp.stat (normalize_path path)
              :: BackendOp.list (normalize_path path) true
              :: t0 ++ [BackendOp.delete (normalize_path path)] := by
          simp [Operator.remove_all, hstat, hmode, hlist, hb, hgo, hd]
        have hnot : ∀ o ∈ t0, o ≠ BackendOp.delete (normalize_path path) := by
          intro o ho
          obtain ⟨ent, hm, hco⟩ := htr o ho
          rw [hco]
          simp [(hchild ent hm).1]
        have hbat : ∀ c, BackendOp.batch c ∈ t0 → normalize_path path ∉ c := by
          intro c hcmem hqc
          obtain ⟨ent, hm, hco⟩ := htr _ hcmem
          exact BackendOp.noConfusion hco
        refine ⟨t0, hra, ?_, ?_, hnot, hbat⟩
        · rw [hra]
          exact List.getLast?_concat _
        · rw [hra]
          have hnm : BackendOp.delete (normalize_path path) ∉ t0 :=
            fun hmem => (hnot _ hmem) rfl
          simp [List.count_cons, List.count_append, List.count_eq_zero.mpr hnm]

/-- Witness for C5: removing the directory `d/` with children `d/a` and
`d/b`; the directory's own delete is last and unique. -/
theorem C5_remove_all_dir_delete_last_witness :
    ((Operator.from_inner witBackend).remove_all "d/").2.getLast? =
      some (BackendOp.delete (normalize_path "d/")) ∧
    ((Operator.from_inner witBackend).remove_all "d/").2.count
      (BackendOp.delete (normalize_path "d/")) = 1 := by
  obtain ⟨t, h1, h2, h3, h4, h5⟩ :=
    C5_remove_all_dir_delete_last (Operator.from_inner witBackend) "d/"
      ⟨EntryMode.DIR, 0⟩ [Except.ok ⟨"d/a"⟩, Except.ok ⟨"d/b"⟩]
      rfl rfl rfl
      (by
        intro ent hm
        simp only [List.mem_cons, List.not_mem_nil, or_false] at hm
        rcases hm with h | h <;>
          (injection h with h2; subst h2; exact ⟨by decide, by decide⟩))
      rfl
  exact ⟨h2, h3⟩

/-- C10 counterexample: when creating the root lister itself fails,
`check` propagates that error even though no listing item exists (here the
creation error even has kind `NotFound`), so `check` does not return an
error only when the first item of the root listing is a non-`NotFound`
error. -/
theorem C10_check_lister_creation_counterexample :
    (Operator.from_inner lcBackend).check =
      Except.error ⟨ErrorKind.NotFound, "no list"⟩ ∧
    lcBackend.listFn (normalize_path "/") false =
      Except.error ⟨ErrorKind.NotFound, "no list"⟩ := ⟨rfl, rfl⟩

end Opendal
